import Mathlib

/-!
Formal model of the prompt-enhancer core (`core.py`): the pattern catalog,
template substitution (`PromptEnhancer.enhance_prompt`), the model-client
helpers (`get_ollama_models`, `call_ollama`), the AI critique-and-rewrite
pipeline (`rewrite_prompt_with_ai`) and the strategy chooser
(`choose_enhancement_strategy`).  Python strings are modelled as `List Char`;
calls to the external model server are modelled by an explicit oracle
argument, and the number of oracle calls is tracked in the results.
-/

set_option maxRecDepth 10000

namespace PromptEnh

/-- Python strings are modelled as lists of characters. -/
abbrev LC := List Char

/-- ASCII whitespace, as recognised by Python `str.split()` and `str.strip()`. -/
def isPyWS (c : Char) : Bool :=
  c == ' ' || c == '\t' || c == '\n' || c == '\r' || c == '\x0b' || c == '\x0c'

/-- Python `str.strip()`: remove leading and trailing whitespace. -/
def pyStrip (s : LC) : LC :=
  ((s.dropWhile isPyWS).reverse.dropWhile isPyWS).reverse

/-- Python `str.lower()` (ASCII case folding, which is all the code relies on). -/
def pyLower (s : LC) : LC := s.map Char.toLower

/-- Python `str.split()` with no argument: maximal runs of non-whitespace. -/
def pySplit (s : LC) : List LC :=
  (s.splitOnP isPyWS).filter (fun w => !w.isEmpty)

/-- Word count of a prompt, i.e. Python `len(prompt.split())`. -/
def wordCount (s : LC) : Nat := (pySplit s).length

/-- First-match lookup in an association list; models Python `dict` lookup
(the dictionaries in the source have distinct keys). -/
def lookupAssoc {α : Type} : List (LC × α) → LC → Option α
  | [], _ => none
  | (k, v) :: rest, key => if k = key then some v else lookupAssoc rest key

/-- One piece of a parsed Python format string: either literal text or a
named replacement field `\x7bname\x7d`. -/
inductive Piece : Type
  | lit (s : LC)
  | hole (name : LC)
deriving DecidableEq, Repr

/-- Worker for `parseFormat`: scans the template character by character,
accumulating the current literal run (or the current field name when between
braces). -/
def parseFormatGo : Bool → LC → LC → List Piece
  | false, acc, [] => [Piece.lit acc.reverse]
  | true, acc, [] => [Piece.hole acc.reverse]
  | false, acc, c :: rest =>
    if c = '{' then Piece.lit acc.reverse :: parseFormatGo true [] rest
    else parseFormatGo false (c :: acc) rest
  | true, acc, c :: rest =>
    if c = '}' then Piece.hole acc.reverse :: parseFormatGo false [] rest
    else parseFormatGo true (c :: acc) rest

/-- Parse a Python format template into literal pieces and named fields.
The templates in the catalog use only plain named fields (no escaping, no
format specs), so this simple scanner matches `str.format`'s field parsing. -/
def parseFormat (s : LC) : List Piece := parseFormatGo false [] s

/-- Render one piece under an environment of named arguments: literal text is
kept verbatim, a field is looked up (Python raises `KeyError`, here `none`,
when the name is absent). -/
def renderPiece (env : List (LC × LC)) : Piece → Option LC
  | Piece.lit s => some s
  | Piece.hole n => lookupAssoc env n

/-- Render a list of pieces, failing if any field is unbound; models
`template.format(**env)`. -/
def formatPieces (env : List (LC × LC)) : List Piece → Option LC
  | [] => some []
  | p :: ps =>
    match renderPiece env p, formatPieces env ps with
    | some s, some rest => some (s ++ rest)
    | _, _ => none

/-- Decidable check that every field of a parsed template is bound in the
environment. -/
def allHolesCovered (env : List (LC × LC)) (ps : List Piece) : Bool :=
  ps.all fun pc =>
    match pc with
    | Piece.lit _ => true
    | Piece.hole n => (lookupAssoc env n).isSome

/-- One entry of the pattern catalog: display name, description and optional
template. -/
structure Pattern where
  name : LC
  description : LC
  template : Option LC
deriving DecidableEq

/-- The pattern catalog `ENHANCEMENT_PATTERNS` of `core.py`, in insertion
order. -/
def ENHANCEMENT_PATTERNS : List (LC × Pattern) :=
  [ ("ai_rewrite".data,
     { name := "AI-Driven Rewrite".data
       description :=
         "Uses an AI to critique and rewrite the prompt from scratch for maximum effectiveness.".data
       template := none }),
    ("xml_structure".data,
     { name := "XML Structure Enhancement".data
       description :=
         "Uses XML tags for clear prompt organization (Anthropic's signature technique)".data
       template := some
         "<instructions>\n{original_prompt}\n</instructions>\n\n<context>\nProvide any relevant background information that helps with understanding the task.\n</context>\n\n<examples>\n<example>\n<input>Sample input here</input>\n<output>Expected output format</output>\n</example>\n</examples>\n\n<formatting>\nPlease structure your response clearly and follow the examples provided.\n</formatting>".data }),
    ("chain_of_thought".data,
     { name := "Chain of Thought with XML".data
       description :=
         "Encourages step-by-step reasoning with structured thinking".data
       template := some
         "<task>\n{original_prompt}\n</task>\n\n<instructions>\nBefore providing your final answer, please think through this step-by-step inside <thinking> tags:\n1. Break down the problem\n2. Consider different approaches\n3. Work through the solution\n4. Verify your reasoning\n</instructions>\n\n<thinking>\n[Your step-by-step reasoning will go here]\n</thinking>\n\nPlease provide your response after showing your thinking process.".data }),
    ("role_prompting".data,
     { name := "Role-Based Prompting".data
       description :=
         "Assigns specific expert roles for domain expertise".data
       template := some
         "<role>\nYou are a world-class {persona} with {years_experience} years of experience in {domain}. You are known for your {key_strengths} and have a reputation for {reputation_traits}.\n</role>\n\n<task>\n{original_prompt}\n</task>\n\n<approach>\nAs an expert {persona}, please:\n1. Apply your specialized knowledge and experience\n2. Consider industry best practices and standards\n3. Provide insights that only an expert would know\n4. Structure your response professionally\n</approach>".data }),
    ("multishot_examples".data,
     { name := "Multishot Example Enhancement".data
       description :=
         "Provides multiple high-quality examples with consistent formatting".data
       template := some
         "<task>\n{original_prompt}\n</task>\n\n<examples>\n<example_1>\n<input>{example_input_1}</input>\n<output>{example_output_1}</output>\n</example_1>\n\n<example_2>\n<input>{example_input_2}</input>\n<output>{example_output_2}</output>\n</example_2>\n</examples>\n\n<instructions>\nFollowing the pattern shown in the examples above, please process the actual task.\n</instructions>".data }) ]

/-- The catalog's keys in iteration (insertion) order. -/
def catalogKeys : List LC := ENHANCEMENT_PATTERNS.map Prod.fst

/-- Python `str.replace(pat, rep)`: replace every (left-to-right,
non-overlapping) occurrence of `pat` by `rep`.  The source only calls it with
non-empty patterns, and an empty pattern is treated as matching nowhere. -/
def replaceAll (pat rep : LC) (s : LC) : LC :=
  match s with
  | [] => []
  | c :: rest =>
    if h : 0 < pat.length ∧ pat.isPrefixOf (c :: rest) = true then
      rep ++ replaceAll pat rep ((c :: rest).drop pat.length)
    else
      c :: replaceAll pat rep rest
  termination_by s.length
  decreasing_by
  · obtain ⟨h1, -⟩ := h
    simp only [List.length_drop, List.length_cons]
    omega
  · simp [Nat.lt_succ_self]

/-- An oracle standing for `call_ollama`: maps (prompt, model) to the reply
text.  It is total, matching the fact that `call_ollama` never raises. -/
abbrev GenOracle := LC → LC → LC

/-- The critique instruction sent by `rewrite_prompt_with_ai` (its first
f-string, with the user prompt spliced in). -/
def critiquePromptText (prompt : LC) : LC :=
  "<task>\nYou are a world-class prompt engineering expert. Your task is to analyze and critique the following user-provided prompt.\nIdentify its weaknesses based on criteria like clarity, specificity, context, constraints, and desired output format.\n\n**User Prompt:**\n`".data
    ++ prompt
    ++ "`\n\nProvide your critique in a <critique> XML tag. Be specific and constructive.\n</task>".data

/-- The rewrite instruction sent by `rewrite_prompt_with_ai` (its second
f-string, with the user prompt and the raw critique spliced in). -/
def rewritePromptText (prompt critique : LC) : LC :=
  "<task>\nYou are a world-class prompt engineering expert. You will be given an original prompt and a critique of that prompt.\nYour task is to rewrite the original prompt to be a much more effective, \"best-in-class\" prompt, addressing all the points in the critique.\nThe new prompt should be significantly more detailed and structured, incorporating principles like XML tagging, clear instructions, context, and examples where appropriate.\n\n**Original Prompt:**\n`".data
    ++ prompt
    ++ "`\n\n**Critique:**\n".data
    ++ critique
    ++ "\n\nNow, provide the new, rewritten prompt inside a <rewritten_prompt> XML tag. Output only the content for the new prompt, without the XML tag itself.\n</task>".data

/-- Model of `rewrite_prompt_with_ai`: two oracle calls, then tag stripping
and trimming of both results.  Returns (critique, rewritten prompt). -/
def rewrite_prompt_with_ai (gen : GenOracle) (prompt model : LC) : LC × LC :=
  let critique := gen (critiquePromptText prompt) model
  let rewritten := gen (rewritePromptText prompt critique) model
  (pyStrip (replaceAll "</critique>".data [] (replaceAll "<critique>".data [] critique)),
   pyStrip (replaceAll "</rewritten_prompt>".data []
     (replaceAll "<rewritten_prompt>".data [] rewritten)))

/-- One entry of `PromptEnhancer.enhancement_history`. -/
structure EnhancementRecord where
  timestamp : LC
  original : LC
  enhanced : LC
  etype : LC
  parameters : List (LC × LC)
deriving DecidableEq

/-- Observable outcome of a successful `enhance_prompt` call: the returned
string, the new history, the critique side channel
(`st.session_state.critique`, `none` when untouched) and the number of
model-client calls made. -/
structure EnhanceOut where
  output : LC
  history : List EnhancementRecord
  critique : Option LC
  calls : Nat
deriving DecidableEq

/-- Model of `PromptEnhancer.enhance_prompt`.  `hist` is the object's history
before the call and `ts` the timestamp `datetime.now().isoformat()` would
produce.  A raised exception (missing template parameter, or a `None`
template reached outside the AI branch) is `Except.error` carrying the
unchanged history. -/
def enhance_prompt (gen : GenOracle) (hist : List EnhancementRecord)
    (prompt etype : LC) (kwargs : List (LC × LC)) (ts : LC) :
    Except (List EnhancementRecord) EnhanceOut :=
  if (lookupAssoc ENHANCEMENT_PATTERNS etype).isNone then
    .ok ⟨prompt, hist, none, 0⟩
  else if etype = "ai_rewrite".data then
    let model := (lookupAssoc kwargs "model".data).getD "llama3".data
    let res := rewrite_prompt_with_ai gen prompt model
    .ok ⟨res.2, hist, some res.1, 2⟩
  else
    match lookupAssoc ENHANCEMENT_PATTERNS etype with
    | none => .ok ⟨prompt, hist, none, 0⟩
    | some pat =>
      match pat.template with
      | none => .error hist
      | some tpl =>
        match formatPieces (("original_prompt".data, prompt) :: kwargs) (parseFormat tpl) with
        | none => .error hist
        | some enhanced =>
          .ok ⟨enhanced, hist ++ [⟨ts, prompt, enhanced, etype, kwargs⟩], none, 0⟩

/-- Outcome of the HTTP POST inside `call_ollama`, as seen by the function
body: either the parsed JSON's optional `response` field, or any raised
exception (timeout, connection error, bad status, malformed body) rendered
as its message. -/
inductive PostOutcome : Type
  | ok (response : Option LC)
  | exn (msg : LC)

/-- Model of `call_ollama`, parameterised by the HTTP outcome.  Total: every
outcome yields a string. -/
def call_ollama (outcome : PostOutcome) : LC :=
  match outcome with
  | .ok (some r) => pyStrip r
  | .ok none => pyStrip "[No response from Ollama]".data
  | .exn e => "[Ollama Error: ".data ++ e ++ "]".data

/-- Outcome of the HTTP GET inside `get_ollama_models`: either the optional
`name` field of each entry of the parsed `models` array, or a raised
`RequestException`. -/
inductive TagsOutcome : Type
  | ok (entries : List (Option LC))
  | exn

/-- Model of `get_ollama_models`, parameterised by the HTTP outcome. -/
def get_ollama_models (outcome : TagsOutcome) : List LC :=
  match outcome with
  | .exn => []
  | .ok entries =>
    let models := (entries.map (fun e => e.getD [])).mergeSort (fun a b => decide (a ≤ b))
    if models.isEmpty then ["llama3:latest".data] else models

/-- Python `"sep".join(xs)`. -/
def joinSep (sep : LC) : List LC → LC
  | [] => []
  | [x] => x
  | x :: xs => x ++ sep ++ joinSep sep xs

/-- The strategy list embedded in the chooser's meta prompt. -/
def strategyDescriptions : LC :=
  joinSep "\n".data
    (ENHANCEMENT_PATTERNS.map fun kv =>
      "- **".data ++ kv.1 ++ "**: ".data ++ kv.2.name ++ " - ".data ++ kv.2.description)

/-- The meta prompt `choose_enhancement_strategy` sends to the model. -/
def metaPromptText (prompt : LC) : LC :=
  "<task>\nYou are an expert in prompt engineering. Your task is to analyze the following user prompt and choose the single best enhancement strategy from the list provided.\n\n**User Prompt:**\n\"".data
    ++ prompt
    ++ "\"\n\n**Available Enhancement Strategies:**\n".data
    ++ strategyDescriptions
    ++ "\n\n**Instructions:**\n1. Read the user prompt carefully.\n2. For simple, short prompts, a template-based approach is fine.\n3. For more complex or vague prompts, `ai_rewrite` is usually the best choice.\n4. Respond with ONLY the identifier of your chosen strategy (e.g., xml_structure, ai_rewrite). Do not add any other text or explanation.\n</task>\n\nChosen strategy identifier:".data

/-- Python `pat in s` for strings: substring containment. -/
def containsSub (pat s : LC) : Bool := decide (pat <:+: s)

/-- The chooser's containment loop: return the first key occurring as a
substring of the normalised reply, else the fixed fallback. -/
def firstKeyIn : List LC → LC → LC
  | [], _ => "xml_structure".data
  | k :: ks, chosen => if containsSub k chosen then k else firstKeyIn ks chosen

/-- Model of `choose_enhancement_strategy`, parameterised by the oracle; the
second component counts model-client calls. -/
def choose_enhancement_strategy (gen : GenOracle) (prompt model : LC) : LC × Nat :=
  if 15 < wordCount prompt then ("ai_rewrite".data, 0)
  else
    let raw := pyLower (pyStrip (gen (metaPromptText prompt) model))
    (firstKeyIn catalogKeys raw, 1)

/-- The template of a catalog entry, when the identifier is in the catalog
and the entry has one. -/
def templateOf (etype : LC) : Option LC :=
  (lookupAssoc ENHANCEMENT_PATTERNS etype).bind Pattern.template

/-- Observation helper: the given needle is a substring of the output of a
successful `enhance_prompt` call. -/
def outputHas (needle : LC) (e : Except (List EnhancementRecord) EnhanceOut) : Prop :=
  match e with
  | .ok o => needle <:+: o.output
  | .error _ => False

/-- Observation helper: the history length of a successful `enhance_prompt`
call. -/
def okHistoryLength (e : Except (List EnhancementRecord) EnhanceOut) : Option Nat :=
  match e with
  | .ok o => some o.history.length
  | .error _ => none

/-! ### Helper lemmas -/

theorem lookupAssoc_eq_none_iff {α : Type} (l : List (LC × α)) (key : LC) :
    lookupAssoc l key = none ↔ key ∉ l.map Prod.fst := by
  induction l with
  | nil => simp [lookupAssoc]
  | cons kv rest ih =>
    obtain ⟨k, v⟩ := kv
    simp only [lookupAssoc, List.map_cons, List.mem_cons]
    by_cases hk : k = key
    · rw [if_pos hk]
      constructor
      · intro h
        cases h
      · intro h
        exact (h (Or.inl hk.symm)).elim
    · rw [if_neg hk, ih]
      constructor
      · intro h hor
        rcases hor with h1 | h2
        · exact hk h1.symm
        · exact h h2
      · intro h hmem
        exact h (Or.inr hmem)

theorem lcInfixTrans {a b c : LC} (h1 : a <:+: b) (h2 : b <:+: c) : a <:+: c := by
  obtain ⟨s1, t1, e1⟩ := h1
  obtain ⟨s2, t2, e2⟩ := h2
  exact ⟨s2 ++ s1, t1 ++ t2, by rw [← e2, ← e1]; simp⟩

theorem lcInfixCons {a rest : LC} {c : Char} (h : a <:+: rest) : a <:+: c :: rest := by
  obtain ⟨s, t, e⟩ := h
  exact ⟨c :: s, t, by rw [← e]; rfl⟩

theorem lcPreToInf {a l : LC} (h : a <+: l) : a <:+: l := by
  obtain ⟨t, e⟩ := h
  exact ⟨[], t, by simpa using e⟩

theorem optSomeGetD {α : Type} (o : Option α) (d : α) (h : o.isSome = true) :
    o = some (o.getD d) := by
  cases o
  · simp at h
  · rfl

theorem formatPieces_covered (env : List (LC × LC)) (ps : List Piece)
    (hcov : allHolesCovered env ps = true) :
    ∃ out, formatPieces env ps = some out ∧
      ∀ pc ∈ ps, ∀ v, renderPiece env pc = some v → v <:+: out := by
  induction ps with
  | nil => exact ⟨[], rfl, by simp⟩
  | cons pc0 ps ih =>
    rw [allHolesCovered, List.all_cons, Bool.and_eq_true] at hcov
    obtain ⟨hc1, hc2⟩ := hcov
    have hr : ∃ s, renderPiece env pc0 = some s := by
      cases pc0 with
      | lit s => exact ⟨s, rfl⟩
      | hole n =>
        simp only [renderPiece]
        exact Option.isSome_iff_exists.mp hc1
    obtain ⟨s, hs⟩ := hr
    obtain ⟨rest, hrest, hmem⟩ := ih hc2
    refine ⟨s ++ rest, by simp [formatPieces, hs, hrest], ?_⟩
    intro pc hpc v hv
    rcases List.mem_cons.mp hpc with h | h
    · subst h
      rw [hs] at hv
      injection hv with hv
      exact ⟨[], rest, by rw [hv]; rfl⟩
    · obtain ⟨a, b, e⟩ := hmem pc h v hv
      exact ⟨s ++ a, b, by rw [← e]; simp⟩

theorem formatPieces_none_of_missing (env : List (LC × LC)) (ps : List Piece)
    (n : LC) (hn : Piece.hole n ∈ ps) (hmiss : lookupAssoc env n = none) :
    formatPieces env ps = none := by
  induction ps with
  | nil => cases hn
  | cons pc0 ps ih =>
    rcases List.mem_cons.mp hn with h | h
    · rw [← h]
      simp [formatPieces, renderPiece, hmiss]
    · cases hr : renderPiece env pc0 <;> simp [formatPieces, hr, ih h]

theorem enhance_template_eq (gen : GenOracle) (hist : List EnhancementRecord)
    (p etype : LC) (kwargs : List (LC × LC)) (ts : LC) (pat : Pattern)
    (tpl out : LC)
    (hl : lookupAssoc ENHANCEMENT_PATTERNS etype = some pat)
    (hne : etype ≠ "ai_rewrite".data)
    (hpt : pat.template = some tpl)
    (hout : formatPieces (("original_prompt".data, p) :: kwargs) (parseFormat tpl)
      = some out) :
    enhance_prompt gen hist p etype kwargs ts
      = .ok ⟨out, hist ++ [⟨ts, p, out, etype, kwargs⟩], none, 0⟩ := by
  unfold enhance_prompt
  rw [hl]
  simp [hne, hpt, hout]

theorem enhance_template_error (gen : GenOracle) (hist : List EnhancementRecord)
    (p etype : LC) (kwargs : List (LC × LC)) (ts : LC) (pat : Pattern) (tpl : LC)
    (hl : lookupAssoc ENHANCEMENT_PATTERNS etype = some pat)
    (hne : etype ≠ "ai_rewrite".data)
    (hpt : pat.template = some tpl)
    (hfail : formatPieces (("original_prompt".data, p) :: kwargs) (parseFormat tpl)
      = none) :
    enhance_prompt gen hist p etype kwargs ts = .error hist := by
  unfold enhance_prompt
  rw [hl]
  simp [hne, hpt, hfail]

/-! ### C2, C4, C7, C8 -/

/-- C2: for every prompt of more than 15 whitespace-separated words and any
model, the chooser returns `ai_rewrite` and makes no model-client call. -/
theorem choose_long_short_circuit (gen : GenOracle) (p model : LC)
    (h : 15 < wordCount p) :
    choose_enhancement_strategy gen p model = ("ai_rewrite".data, 0) := by
  simp [choose_enhancement_strategy, h]

theorem choose_long_short_circuit_witness :
    15 < wordCount "a b c d e f g h i j k l m n o p".data ∧
    choose_enhancement_strategy (fun _ _ => "xml_structure".data)
      "a b c d e f g h i j k l m n o p".data "llama3".data = ("ai_rewrite".data, 0) :=
  ⟨by decide,
   choose_long_short_circuit (fun _ _ => "xml_structure".data)
     "a b c d e f g h i j k l m n o p".data "llama3".data (by decide)⟩

/-- C4: an identifier outside the catalog makes `enhance_prompt` return the
prompt unchanged: no exception, no history change, no model-client call. -/
theorem enhance_unknown_noop (gen : GenOracle) (hist : List EnhancementRecord)
    (p etype : LC) (kwargs : List (LC × LC)) (ts : LC)
    (h : etype ∉ catalogKeys) :
    enhance_prompt gen hist p etype kwargs ts = .ok ⟨p, hist, none, 0⟩ := by
  have hn : lookupAssoc ENHANCEMENT_PATTERNS etype = none :=
    (lookupAssoc_eq_none_iff _ _).mpr h
  simp [enhance_prompt, hn]

theorem enhance_unknown_noop_witness :
    ("bogus".data ∉ catalogKeys) ∧
    enhance_prompt (fun _ _ => "x".data) [] "p".data "bogus".data [] "t".data
      = .ok ⟨"p".data, [], none, 0⟩ :=
  ⟨by decide,
   enhance_unknown_noop (fun _ _ => "x".data) [] "p".data "bogus".data [] "t".data
     (by decide)⟩

theorem c1core (gen : GenOracle) (hist : List EnhancementRecord)
    (p etype : LC) (kwargs : List (LC × LC)) (ts : LC)
    (hlookup_ne : lookupAssoc ENHANCEMENT_PATTERNS etype ≠ none)
    (hne : etype ≠ "ai_rewrite".data)
    (hhole : Piece.hole "original_prompt".data ∈ parseFormat ((templateOf etype).getD []))
    (hcov : allHolesCovered (("original_prompt".data, p) :: kwargs)
      (parseFormat ((templateOf etype).getD [])) = true) :
    ∃ o, enhance_prompt gen hist p etype kwargs ts = .ok o ∧
      p <:+: o.output ∧
      (∀ w s, Piece.lit s ∈ parseFormat ((templateOf etype).getD []) →
        w <:+: s → w <:+: o.output) := by
  have hTsome : (templateOf etype).isSome = true := by
    cases hT : templateOf etype with
    | some t => rfl
    | none =>
      rw [hT] at hhole
      simp [parseFormat, parseFormatGo] at hhole
  cases hl : lookupAssoc ENHANCEMENT_PATTERNS etype with
  | none => exact absurd hl hlookup_ne
  | some pat =>
    have heq : templateOf etype = pat.template := by
      rw [templateOf, hl]
      rfl
    have hpt : pat.template = some ((templateOf etype).getD []) := by
      rw [← heq]
      exact optSomeGetD _ _ hTsome
    obtain ⟨out, hout, hmem⟩ := formatPieces_covered _ _ hcov
    have hE := enhance_template_eq gen hist p etype kwargs ts pat _ out hl hne hpt hout
    refine ⟨_, hE, ?_, ?_⟩
    · exact hmem _ hhole p (by simp [renderPiece, lookupAssoc])
    · intro w s hlit hws
      exact lcInfixTrans hws (hmem _ hlit s rfl)

/-- C1: for each of the four template-backed catalog patterns, enhancing any
prompt with all of the template's extra named parameters supplied succeeds,
and the result contains the prompt verbatim as a substring together with
every fixed literal segment of the template (in particular `<instructions>`
for the `xml_structure` pattern). -/
theorem enhance_template_contains (gen : GenOracle) (hist : List EnhancementRecord)
    (p etype : LC) (kwargs : List (LC × LC)) (ts : LC)
    (hid : etype = "xml_structure".data ∨ etype = "chain_of_thought".data ∨
      etype = "role_prompting".data ∨ etype = "multishot_examples".data)
    (hcov : allHolesCovered (("original_prompt".data, p) :: kwargs)
      (parseFormat ((templateOf etype).getD [])) = true) :
    ∃ o, enhance_prompt gen hist p etype kwargs ts = .ok o ∧
      p <:+: o.output ∧
      (∀ w s, Piece.lit s ∈ parseFormat ((templateOf etype).getD []) →
        w <:+: s → w <:+: o.output) ∧
      (etype = "xml_structure".data → "<instructions>".data <:+: o.output) := by
  rcases hid with h | h | h | h <;> subst h
  · obtain ⟨o, hE, h1, h2⟩ :=
      c1core gen hist p "xml_structure".data kwargs ts (by decide) (by decide)
        (by decide) hcov
    exact ⟨o, hE, h1, h2,
      fun _ => h2 "<instructions>".data "<instructions>\n".data (by decide) (by decide)⟩
  · obtain ⟨o, hE, h1, h2⟩ :=
      c1core gen hist p "chain_of_thought".data kwargs ts (by decide) (by decide)
        (by decide) hcov
    exact ⟨o, hE, h1, h2, fun hx => absurd hx (by decide)⟩
  · obtain ⟨o, hE, h1, h2⟩ :=
      c1core gen hist p "role_prompting".data kwargs ts (by decide) (by decide)
        (by decide) hcov
    exact ⟨o, hE, h1, h2, fun hx => absurd hx (by decide)⟩
  · obtain ⟨o, hE, h1, h2⟩ :=
      c1core gen hist p "multishot_examples".data kwargs ts (by decide) (by decide)
        (by decide) hcov
    exact ⟨o, hE, h1, h2, fun hx => absurd hx (by decide)⟩

theorem enhance_template_contains_witness :
    outputHas "test prompt".data
      (enhance_prompt (fun _ _ => "x".data) [] "test prompt".data "xml_structure".data [] "t".data) ∧
    outputHas "<instructions>".data
      (enhance_prompt (fun _ _ => "x".data) [] "test prompt".data "xml_structure".data [] "t".data) := by
  obtain ⟨o, hE, h1, h2, h3⟩ :=
    enhance_template_contains (fun _ _ => "x".data) [] "test prompt".data
      "xml_structure".data [] "t".data (Or.inl rfl) (by decide)
  rw [hE]
  exact ⟨h1, h3 rfl⟩

/-- C6: for a template-backed catalog pattern whose template mentions a named
placeholder other than `original_prompt` that the caller did not supply,
`enhance_prompt` raises (models Python's `KeyError` from `str.format`) and the
enhancement history is left unchanged (the error carries the unmodified
history). -/
theorem enhance_missing_param_raises (gen : GenOracle) (hist : List EnhancementRecord)
    (p etype : LC) (kwargs : List (LC × LC)) (ts : LC) (n : LC)
    (hcat : etype ∈ catalogKeys)
    (hne : etype ≠ "ai_rewrite".data)
    (hn : Piece.hole n ∈ parseFormat ((templateOf etype).getD []))
    (hnp : n ≠ "original_prompt".data)
    (hmiss : lookupAssoc kwargs n = none) :
    enhance_prompt gen hist p etype kwargs ts = .error hist := by
  have hlookup_ne : lookupAssoc ENHANCEMENT_PATTERNS etype ≠ none := by
    rw [ne_eq, lookupAssoc_eq_none_iff]
    exact fun hc => hc hcat
  have hmiss' : lookupAssoc (("original_prompt".data, p) :: kwargs) n = none := by
    show (if "original_prompt".data = n then some p else lookupAssoc kwargs n) = none
    rw [if_neg (fun hh => hnp hh.symm)]
    exact hmiss
  have hTsome : (templateOf etype).isSome = true := by
    cases hT : templateOf etype with
    | some t => rfl
    | none =>
      rw [hT] at hn
      simp [parseFormat, parseFormatGo] at hn
  cases hl : lookupAssoc ENHANCEMENT_PATTERNS etype with
  | none => exact absurd hl hlookup_ne
  | some pat =>
    have heq : templateOf etype = pat.template := by
      rw [templateOf, hl]
      rfl
    have hpt : pat.template = some ((templateOf etype).getD []) := by
      rw [← heq]
      exact optSomeGetD _ _ hTsome
    exact enhance_template_error gen hist p etype kwargs ts pat _ hl hne hpt
      (formatPieces_none_of_missing _ _ n hn hmiss')

theorem enhance_missing_param_raises_witness :
    enhance_prompt (fun _ _ => "x".data) [] "p".data "role_prompting".data [] "t".data
      = .error [] :=
  enhance_missing_param_raises (fun _ _ => "x".data) [] "p".data "role_prompting".data
    [] "t".data "persona".data (by decide) (by decide) (by decide) (by decide) rfl

theorem containsSub_true_iff (pat s : LC) : containsSub pat s = true ↔ pat <:+: s := by
  simp [containsSub]

theorem firstKeyIn_of_none (ks : List LC) (chosen : LC)
    (h : ∀ k ∈ ks, ¬ k <:+: chosen) :
    firstKeyIn ks chosen = "xml_structure".data := by
  induction ks with
  | nil => rfl
  | cons k ks ih =>
    rw [firstKeyIn, if_neg]
    · exact ih fun k2 hk2 => h k2 (List.mem_cons_of_mem _ hk2)
    · simp [containsSub_true_iff]
      exact h k (List.mem_cons_self _ _)

theorem firstKeyIn_of_first (ks : List LC) (chosen : LC) (i : Nat)
    (hi : i < ks.length) (hmatch : ks[i] <:+: chosen)
    (hbefore : ∀ k2 ∈ ks.take i, ¬ k2 <:+: chosen) :
    firstKeyIn ks chosen = ks[i] := by
  induction ks generalizing i with
  | nil => simp at hi
  | cons k ks ih =>
    cases i with
    | zero =>
      simp only [List.getElem_cons_zero] at hmatch ⊢
      rw [firstKeyIn, if_pos ((containsSub_true_iff _ _).mpr hmatch)]
    | succ i =>
      have hk : ¬ k <:+: chosen := by
        refine hbefore k ?_
        simp [List.take_succ_cons]
      simp only [List.getElem_cons_succ] at hmatch ⊢
      rw [firstKeyIn, if_neg (by simpa [containsSub_true_iff] using hk)]
      refine ih i (Nat.lt_of_succ_lt_succ hi) hmatch ?_
      intro k2 hk2
      exact hbefore k2 (by simp [List.take_succ_cons, hk2])

/-- C3: for prompts of at most 15 words the chooser makes exactly one
model-client call, lower-cases and trims the reply, and returns the first
catalog identifier (in catalog insertion order) contained in the normalised
reply, falling back to `xml_structure` when none is contained. -/
theorem choose_short_delegates (gen : GenOracle) (p model : LC)
    (hw : wordCount p ≤ 15) :
    catalogKeys = ["ai_rewrite".data, "xml_structure".data, "chain_of_thought".data,
      "role_prompting".data, "multishot_examples".data] ∧
    (choose_enhancement_strategy gen p model).2 = 1 ∧
    ((∀ k ∈ catalogKeys,
        ¬ k <:+: pyLower (pyStrip (gen (metaPromptText p) model))) →
      (choose_enhancement_strategy gen p model).1 = "xml_structure".data) ∧
    (∀ i, (hi : i < catalogKeys.length) →
      catalogKeys[i] <:+: pyLower (pyStrip (gen (metaPromptText p) model)) →
      (∀ k2 ∈ catalogKeys.take i,
        ¬ k2 <:+: pyLower (pyStrip (gen (metaPromptText p) model))) →
      (choose_enhancement_strategy gen p model).1 = catalogKeys[i]) := by
  have hw2 : ¬ 15 < wordCount p := by omega
  refine ⟨by decide, ?_, ?_, ?_⟩
  · simp [choose_enhancement_strategy, hw2]
  · intro h
    simp only [choose_enhancement_strategy, if_neg hw2]
    exact firstKeyIn_of_none _ _ h
  · intro i hi hmatch hbefore
    simp only [choose_enhancement_strategy, if_neg hw2]
    exact firstKeyIn_of_first _ _ i hi hmatch hbefore

theorem choose_short_delegates_witness :
    choose_enhancement_strategy (fun _ _ => " Chain_Of_Thought!! ".data)
      "short prompt".data "m".data = ("chain_of_thought".data, 1) := by
  have h := choose_short_delegates (fun _ _ => " Chain_Of_Thought!! ".data)
    "short prompt".data "m".data (by decide)
  have e1 := h.2.2.2 2 (by decide) (by decide) (by decide)
  have e2 := h.2.1
  exact Prod.ext e1 e2

/-- C7: `call_ollama` is a total function into strings: a successful response
comes back trimmed, and any failure comes back as a human-readable error
string in the same channel, recognisable only by its `[Ollama Error: `
content pattern. -/
theorem call_ollama_never_raises :
    (∀ r, call_ollama (.ok (some r)) = pyStrip r) ∧
    (∀ e, call_ollama (.exn e) = "[Ollama Error: ".data ++ e ++ "]".data) ∧
    (∀ e, "[Ollama Error: ".data <+: call_ollama (.exn e)) :=
  ⟨fun _ => rfl, fun _ => rfl, fun e => ⟨e ++ "]".data, by simp [call_ollama]⟩⟩

/-- C8: `get_ollama_models` returns `[]` on failure, the built-in default on
a successful but empty model list, and exactly `["llama3:latest"]` when the
endpoint lists exactly that model. -/
theorem get_models_edge_cases :
    get_ollama_models .exn = [] ∧
    get_ollama_models (.ok []) = ["llama3:latest".data] ∧
    get_ollama_models (.ok [some "llama3:latest".data]) = ["llama3:latest".data] :=
  ⟨rfl, by simp [get_ollama_models, List.mergeSort],
   by simp [get_ollama_models, List.mergeSort]⟩

theorem isPrefixOfTrue (l₁ l₂ : LC) : l₁.isPrefixOf l₂ = true ↔ l₁ <+: l₂ :=
  List.isPrefixOf_iff_prefix

theorem replaceAll_not_infix_eq (pat rep s : LC) (hp : pat ≠ []) (h : ¬ pat <:+: s) :
    replaceAll pat rep s = s := by
  induction s with
  | nil => rw [replaceAll]
  | cons c rest ih =>
    rw [replaceAll, dif_neg]
    · rw [ih (fun hc => h (lcInfixCons hc))]
    · rintro ⟨-, h2⟩
      exact h (lcPreToInf ((isPrefixOfTrue _ _).mp h2))

theorem replaceAll_head_eat (pat rep rest : LC) (hp : pat ≠ []) :
    replaceAll pat rep (pat ++ rest) = rep ++ replaceAll pat rep rest := by
  cases pat with
  | nil => exact absurd rfl hp
  | cons a as =>
    rw [List.cons_append, replaceAll, dif_pos]
    · rw [List.length_cons, List.drop_succ_cons, List.drop_left]
    · refine ⟨by simp, ?_⟩
      rw [isPrefixOfTrue, ← List.cons_append]
      exact ⟨rest, rfl⟩

theorem replaceAll_suffix_eat (pat rep s : LC) (hp : pat ≠ [])
    (hnb : ∀ k, k < pat.length → 0 < k → ¬ pat <+: (pat.take k ++ pat))
    (hni : ¬ pat <:+: s) :
    replaceAll pat rep (s ++ pat) = s ++ rep := by
  induction s with
  | nil => simpa [replaceAll] using replaceAll_head_eat pat rep [] hp
  | cons c rest ih =>
    rw [List.cons_append, replaceAll, dif_neg]
    · rw [List.cons_append]
      rw [ih (fun hc => hni (lcInfixCons hc))]
    · rintro ⟨-, h2⟩
      rw [isPrefixOfTrue] at h2
      rw [← List.cons_append] at h2
      rcases Nat.lt_or_ge (c :: rest).length pat.length with hlen | hlen
      · obtain ⟨t, ht⟩ := h2
        have hu : pat.take (c :: rest).length = c :: rest := by
          have h3 := congrArg (List.take (c :: rest).length) ht
          rw [List.take_append_of_le_length (Nat.le_of_lt hlen), List.take_left] at h3
          exact h3
        refine hnb (c :: rest).length hlen (by simp) ?_
        rw [hu]
        exact ⟨t, ht⟩
      · obtain ⟨t, ht⟩ := h2
        have hpat : pat = (c :: rest).take pat.length := by
          have h3 := congrArg (List.take pat.length) ht
          rw [List.take_left, List.take_append_of_le_length hlen] at h3
          exact h3
        have hpre : pat <+: c :: rest := by
          rw [hpat]
          exact ⟨(c :: rest).drop pat.length, List.take_append_drop _ _⟩
        exact hni (lcPreToInf hpre)

/-- An `Except` result is a success. -/
def isOkE {ε α : Type} : Except ε α → Bool
  | .ok _ => true
  | .error _ => false

theorem enhance_ai_eq (gen : GenOracle) (hist : List EnhancementRecord)
    (p : LC) (kwargs : List (LC × LC)) (ts : LC) :
    enhance_prompt gen hist p "ai_rewrite".data kwargs ts
      = .ok ⟨(rewrite_prompt_with_ai gen p
            ((lookupAssoc kwargs "model".data).getD "llama3".data)).2,
          hist,
          some (rewrite_prompt_with_ai gen p
            ((lookupAssoc kwargs "model".data).getD "llama3".data)).1,
          2⟩ := by
  unfold enhance_prompt
  rw [if_neg (by decide), if_pos rfl]

/-- C5 counterexample: the AI-rewrite identifier is in the catalog, yet an
`enhance` call with it appends nothing to the history (the code returns at
line 119 of `core.py`, before the append at line 124). -/
theorem enhance_ai_rewrite_no_record_cex :
    "ai_rewrite".data ∈ catalogKeys ∧
    enhance_prompt (fun _ _ => "r".data) [] "p".data "ai_rewrite".data [] "t".data
      = .ok ⟨"r".data, [], some "r".data, 2⟩ := by
  refine ⟨by decide, ?_⟩
  have e1 : rewrite_prompt_with_ai (fun _ _ => "r".data) "p".data
      ((lookupAssoc ([] : List (LC × LC)) "model".data).getD "llama3".data)
      = ("r".data, "r".data) := by
    show (pyStrip (replaceAll "</critique>".data []
        (replaceAll "<critique>".data [] "r".data)),
      pyStrip (replaceAll "</rewritten_prompt>".data []
        (replaceAll "<rewritten_prompt>".data [] "r".data))) = ("r".data, "r".data)
    rw [replaceAll_not_infix_eq "<critique>".data [] "r".data (by decide) (by decide),
      replaceAll_not_infix_eq "</critique>".data [] "r".data (by decide) (by decide),
      replaceAll_not_infix_eq "<rewritten_prompt>".data [] "r".data (by decide) (by decide),
      replaceAll_not_infix_eq "</rewritten_prompt>".data [] "r".data (by decide) (by decide)]
    rfl
  rw [enhance_ai_eq, e1]

/-- C5 (amended): a successful `enhance` call leaves the history untouched or
appends exactly one record at the end; it appends exactly one record for every
template-backed catalog identifier, and appends nothing for the AI-rewrite
identifier (contrary to the original claim, the AI-rewrite path does not
record history).  In particular existing entries are never removed, modified
or reordered. -/
theorem enhance_history_append_spec (gen : GenOracle) (hist : List EnhancementRecord)
    (p etype : LC) (kwargs : List (LC × LC)) (ts : LC) (o : EnhanceOut)
    (h : enhance_prompt gen hist p etype kwargs ts = .ok o) :
    (o.history = hist ∨ o.history = hist ++ [⟨ts, p, o.output, etype, kwargs⟩]) ∧
    (etype ∈ catalogKeys → etype ≠ "ai_rewrite".data →
      o.history = hist ++ [⟨ts, p, o.output, etype, kwargs⟩]) ∧
    (etype = "ai_rewrite".data → o.history = hist) := by
  unfold enhance_prompt at h
  split at h
  · rename_i h0
    injection h with h
    subst h
    refine ⟨Or.inl rfl, ?_, fun _ => rfl⟩
    intro hcat _
    exact absurd hcat
      ((lookupAssoc_eq_none_iff _ _).mp (Option.isNone_iff_eq_none.mp h0))
  · rename_i h0
    split at h
    · rename_i hai
      injection h with h
      subst h
      exact ⟨Or.inl rfl, fun _ hne => absurd hai hne, fun _ => rfl⟩
    · rename_i hai
      split at h
      · rename_i hl
        injection h with h
        subst h
        refine ⟨Or.inl rfl, ?_, fun hx => absurd hx hai⟩
        intro hcat _
        exact absurd hcat ((lookupAssoc_eq_none_iff _ _).mp hl)
      · rename_i pat hl
        split at h
        · exact Except.noConfusion h
        · rename_i tpl hpt
          split at h
          · exact Except.noConfusion h
          · rename_i out hfp
            injection h with h
            subst h
            exact ⟨Or.inr rfl, fun _ _ => rfl, fun hx => absurd hx hai⟩

theorem enhance_history_append_spec_witness :
    okHistoryLength (enhance_prompt (fun _ _ => "x".data) [] "test prompt".data
      "xml_structure".data [] "t".data) = some 1 := by
  cases hE : enhance_prompt (fun _ _ => "x".data) [] "test prompt".data
      "xml_structure".data [] "t".data with
  | error e =>
    have hOk : isOkE (enhance_prompt (fun _ _ => "x".data) [] "test prompt".data
        "xml_structure".data [] "t".data) = true := rfl
    rw [hE] at hOk
    simp [isOkE] at hOk
  | ok o =>
    have h2 := (enhance_history_append_spec _ _ _ _ _ _ _ hE).2.1
      (by decide) (by decide)
    simp only [okHistoryLength]
    rw [h2]
    simp

/-- C10: on a successful listing with at least one entry, `get_ollama_models`
returns the entries' names — an entry without a name contributing the empty
string — sorted ascending in lexicographic order, whatever order the endpoint
produced. -/
theorem get_models_sorted (entries : List (Option LC)) (h : entries ≠ []) :
    (get_ollama_models (.ok entries)).Sorted (· ≤ ·) ∧
    (get_ollama_models (.ok entries)).Perm (entries.map (fun e => e.getD [])) := by
  have hperm := List.mergeSort_perm (entries.map (fun e => e.getD []))
    (fun a b => decide (a ≤ b))
  have hnil : (entries.map (fun e => e.getD [])).mergeSort
      (fun a b => decide (a ≤ b)) ≠ [] := by
    intro h0
    rw [h0] at hperm
    have := hperm.length_eq
    rw [List.length_map] at this
    exact h (List.length_eq_zero.mp this.symm)
  have hfalse : ((entries.map (fun e => e.getD [])).mergeSort
      (fun a b => decide (a ≤ b))).isEmpty = false := by
    cases hM : (entries.map (fun e => e.getD [])).mergeSort (fun a b => decide (a ≤ b)) with
    | nil => exact absurd hM hnil
    | cons x xs => rfl
  have hE : get_ollama_models (.ok entries)
      = (entries.map (fun e => e.getD [])).mergeSort (fun a b => decide (a ≤ b)) := by
    show (if ((entries.map (fun e => e.getD [])).mergeSort
          (fun a b => decide (a ≤ b))).isEmpty = true
        then ["llama3:latest".data]
        else (entries.map (fun e => e.getD [])).mergeSort (fun a b => decide (a ≤ b)))
      = (entries.map (fun e => e.getD [])).mergeSort (fun a b => decide (a ≤ b))
    rw [hfalse]
    simp
  rw [hE]
  refine ⟨?_, hperm⟩
  have hs := @List.sorted_mergeSort LC (fun a b => decide (a ≤ b))
    (fun a b c hab hbc => by
      simp only [decide_eq_true_eq] at *
      exact le_trans hab hbc)
    (fun a b => by
      simp only [Bool.or_eq_true, decide_eq_true_eq]
      exact le_total a b)
    (entries.map (fun e => e.getD []))
  exact hs.imp (fun hab => by simpa using hab)

theorem get_models_sorted_witness :
    (get_ollama_models (.ok [some "b".data, none, some "a".data])).Sorted (· ≤ ·) ∧
    (get_ollama_models (.ok [some "b".data, none, some "a".data])).Perm
      ["b".data, [], "a".data] := by
  have h := get_models_sorted [some "b".data, none, some "a".data] (by decide)
  exact ⟨h.1, h.2⟩

/-- C9: on the AI-rewrite path, when the two model replies are the critique
and the rewrite wrapped in their respective XML tags (the bodies not
containing the wrapping tokens themselves), `enhance_prompt` returns the
rewrite body trimmed, and exposes the critique body trimmed through the
side channel (`st.session_state.critique`), not in the return value. -/
theorem enhance_ai_rewrite_spec (gen : GenOracle) (hist : List EnhancementRecord)
    (p : LC) (kwargs : List (LC × LC)) (ts : LC) (c r : LC)
    (hg1 : gen (critiquePromptText p)
        ((lookupAssoc kwargs "model".data).getD "llama3".data)
      = "<critique>".data ++ c ++ "</critique>".data)
    (hg2 : gen (rewritePromptText p
          ("<critique>".data ++ c ++ "</critique>".data))
        ((lookupAssoc kwargs "model".data).getD "llama3".data)
      = "<rewritten_prompt>".data ++ r ++ "</rewritten_prompt>".data)
    (h1 : ¬ "<critique>".data <:+: (c ++ "</critique>".data))
    (h2 : ¬ "</critique>".data <:+: c)
    (h3 : ¬ "<rewritten_prompt>".data <:+: (r ++ "</rewritten_prompt>".data))
    (h4 : ¬ "</rewritten_prompt>".data <:+: r) :
    enhance_prompt gen hist p "ai_rewrite".data kwargs ts
      = .ok ⟨pyStrip r, hist, some (pyStrip c), 2⟩ := by
  rw [enhance_ai_eq]
  have hres : rewrite_prompt_with_ai gen p
      ((lookupAssoc kwargs "model".data).getD "llama3".data)
      = (pyStrip c, pyStrip r) := by
    simp only [rewrite_prompt_with_ai, hg1, hg2]
    rw [List.append_assoc "<critique>".data c "</critique>".data,
      replaceAll_head_eat _ _ _ (by decide), List.nil_append,
      replaceAll_not_infix_eq _ _ _ (by decide) h1,
      replaceAll_suffix_eat _ _ _ (by decide) (by decide) h2, List.append_nil,
      List.append_assoc "<rewritten_prompt>".data r "</rewritten_prompt>".data,
      replaceAll_head_eat _ _ _ (by decide), List.nil_append,
      replaceAll_not_infix_eq _ _ _ (by decide) h3,
      replaceAll_suffix_eat _ _ _ (by decide) (by decide) h4, List.append_nil]
  rw [hres]

theorem enhance_ai_rewrite_spec_witness :
    enhance_prompt
      (fun pr _ => if containsSub "**Original Prompt:**".data pr
        then "<rewritten_prompt> B </rewritten_prompt>".data
        else "<critique> C </critique>".data)
      [] "p".data "ai_rewrite".data [] "t".data
      = .ok ⟨"B".data, [], some "C".data, 2⟩ := by
  have h := enhance_ai_rewrite_spec
    (fun pr _ => if containsSub "**Original Prompt:**".data pr
      then "<rewritten_prompt> B </rewritten_prompt>".data
      else "<critique> C </critique>".data)
    [] "p".data [] "t".data " C ".data " B ".data
    (by decide) (by decide) (by decide) (by decide) (by decide) (by decide)
  exact h

end PromptEnh
